import Mathlib

/-!
Verification of the CUDA cellular automaton `ca.cu` (anneal rule on a torus).

The device grid buffers are modelled as total functions `Nat → Nat → Nat`
(row, column ↦ cell byte).  The allocated buffer of a run with interior
height `lines` occupies rows `0 .. lines+1` and columns `0 .. XSIZE+1`;
rows beyond `lines+1` model the address space past the end of the
allocation (the fixed kernel launch writes there, see below).

A kernel launch `<<<numBlocks, threadsPerBlock>>>` with
`numBlocks = (32, 4096)` and `threadsPerBlock = (32, 32)` spawns threads
with `x ∈ [0, 1024)` and `y ∈ [0, 131072)`, independently of `lines`
(ca.cu lines 162-163).

The `boundary` kernel (ca.cu 84-112) is modelled thread-exactly: each
thread contributes a list of copy actions (read one cell, write one cell,
as in the source), and one execution of the launch is a left fold of all
actions over an arbitrary total order (an interleaving) of the threads.
CUDA gives no intra-kernel ordering, so every permutation of the thread
list is an admissible execution.

The `simulate` kernel (ca.cu 117-126) reads only the source buffer and
each of its threads writes a distinct destination cell, so its launch has
a unique outcome and is modelled directly as a function on grids.
-/

namespace CA

/-- Horizontal size of the configuration, `#define XSIZE 1024` (ca.cu 19). -/
def XSIZE : Nat := 1024

/-- Threads along x per launch: `numBlocks.x * threadsPerBlock.x = 32 * 32`
(ca.cu 162-163). -/
def NX : Nat := 32 * 32

/-- Threads along y per launch: `numBlocks.y * threadsPerBlock.y = 4096 * 32`
(ca.cu 162-163). -/
def NY : Nat := 4096 * 32

/-- A device grid buffer: row, column ↦ cell value. -/
def Grid : Type := Nat → Nat → Nat

/-- Point update of a grid at a (row, column) pair. -/
def gwrite (g : Grid) (p : Nat × Nat) (v : Nat) : Grid :=
  fun y x => if y = p.1 ∧ x = p.2 then v else g y x

/-- One atomic `buf[tgt] = buf[src];` statement of the boundary kernel. -/
structure Act where
  tgt : Nat × Nat
  src : Nat × Nat
deriving DecidableEq

/-- Execute one copy action: read the source cell of the current state and
store it at the target cell. -/
def Act.run (g : Grid) (a : Act) : Grid := gwrite g a.tgt (g a.src.1 a.src.2)

/-- Execute a sequence of copy actions from left to right. -/
def runActs (g : Grid) (l : List Act) : Grid := l.foldl Act.run g

/-- The copy actions performed by the boundary-kernel thread `(x, y)`,
in source order (ca.cu 84-112):
`if (y == lines-1) buf[y+2][x+1] = buf[1][x+1];`
`if (y == 0)       buf[y][x+1]   = buf[lines][x+1];`
`if (x == 0)       buf[y+1][x]   = buf[y+1][XSIZE];`
`if (x == XSIZE-1) buf[y+1][x+2] = buf[y+1][1];`
and the four-corner step guarded by `x == 0 && y == 0`.
(`y == lines - 1` over C ints equals `y + 1 = lines` over naturals for the
thread range `y ≥ 0`.) -/
def boundaryThreadActs (lines x y : Nat) : List Act :=
  (if y + 1 = lines then [⟨(y + 2, x + 1), (1, x + 1)⟩] else []) ++
  (if y = 0 then [⟨(y, x + 1), (lines, x + 1)⟩] else []) ++
  (if x = 0 then [⟨(y + 1, x), (y + 1, XSIZE)⟩] else []) ++
  (if x = XSIZE - 1 then [⟨(y + 1, x + 2), (y + 1, 1)⟩] else []) ++
  (if x = 0 ∧ y = 0 then
    [⟨(0, 0), (lines, XSIZE)⟩, ⟨(0, XSIZE + 1), (lines, 1)⟩,
     ⟨(lines + 1, 0), (1, XSIZE)⟩, ⟨(lines + 1, XSIZE + 1), (1, 1)⟩]
   else [])

/-- All threads of one kernel launch, in a canonical order
(y-major, x ascending within a row). -/
def allThreads : List (Nat × Nat) :=
  (List.range NY).flatMap fun y => (List.range NX).map fun x => (x, y)

/-- One execution of the `boundary` launch under the thread interleaving
`order`; admissible executions are those where `order` is a permutation of
`allThreads`. -/
def boundaryExec (lines : Nat) (order : List (Nat × Nat)) (g : Grid) : Grid :=
  runActs g (order.flatMap fun t => boundaryThreadActs lines t.1 t.2)

/-- The `boundary` launch under the canonical thread order. -/
def boundaryCanon (lines : Nat) (g : Grid) : Grid :=
  boundaryExec lines allThreads g

/-- `static State anneal[10] = {0, 0, 0, 0, 1, 0, 1, 1, 1, 1};` (ca.cu 120). -/
def annealTable : List Nat := [0, 0, 0, 0, 1, 0, 1, 1, 1, 1]

/-- Table lookup `anneal[s]` (used only with `s ≤ 9` when cells are boolean). -/
def anneal (s : Nat) : Nat := annealTable.getD s 0

/-- The 9-cell neighbourhood sum read by `simulate` for destination cell
`(y, x)`, in source order (ca.cu 123-125). -/
def neighSum (g : Grid) (y x : Nat) : Nat :=
  g (y - 1) (x - 1) + g y (x - 1) + g (y + 1) (x - 1) +
  g (y - 1) x + g y x + g (y + 1) x +
  g (y - 1) (x + 1) + g y (x + 1) + g (y + 1) (x + 1)

/-- Outcome of one `simulate` launch (ca.cu 117-126).  Thread `(x, y)` with
`x < NX`, `y < NY` writes `to[y+1][x+1] = anneal[9-cell sum of from]`; every
destination cell is written by at most one thread and the kernel reads only
`gFrom`, so the launch outcome is unique.  The written region is rows
`1 .. NY`, columns `1 .. NX` — the `lines` parameter is unused, exactly as
in the source kernel. -/
def simulateFn (gFrom gTo : Grid) (lines : Nat) : Grid :=
  fun y x =>
    if 1 ≤ y ∧ y ≤ NY ∧ 1 ≤ x ∧ x ≤ NX then anneal (neighSum gFrom y x)
    else gTo y x

/-- One iteration of the driver loop (ca.cu 166-172): run `boundary` on the
current source buffer in place, run `simulate` from the (synchronized)
source into the destination, then swap the two roles. -/
def stepPair (lines : Nat) (p : Grid × Grid) : Grid × Grid :=
  (simulateFn (boundaryCanon lines p.1) p.2 lines, boundaryCanon lines p.1)

/-- The driver loop: `iters` iterations starting from the buffer pair
`(pFrom, pTo)`.  The first component of the result is the buffer holding
the source role after the loop — the one copied back to the host
(ca.cu 173). -/
def deviceRun (lines iters : Nat) (p : Grid × Grid) : Grid × Grid :=
  match iters with
  | 0 => p
  | Nat.succ k => deviceRun lines k (stepPair lines p)

/-- The intended per-step grid transformer of the specification:
synchronize the torus boundary, then apply the transition kernel
(on cells outside the written region it keeps the argument grid). -/
def stepFn (lines : Nat) (g : Grid) : Grid :=
  simulateFn (boundaryCanon lines g) g lines

/-- `initConfig` (ca.cu 70-80): cell `(y, x)` of the interior receives the
value of the C comparison `randInt(100) >= 50` (one byte, 0 or 1) using the
draws of the seeded external generator in row-major order; all other cells
stay at the `calloc` value 0.  The external generator `random.c` is not part
of the simulation core; its draw sequence is abstracted as `rng`. -/
def initGrid (rng : Nat → Nat) (lines : Nat) : Grid :=
  fun y x =>
    if 1 ≤ y ∧ y ≤ lines ∧ 1 ≤ x ∧ x ≤ XSIZE then
      if 50 ≤ rng ((y - 1) * XSIZE + (x - 1)) then 1 else 0
    else 0

/-- Every cell of the grid holds a boolean byte. -/
def boolGrid (g : Grid) : Prop := ∀ y x : Nat, g y x = 0 ∨ g y x = 1

/-- The bytes actually hashed by the reporting step (ca.cu 177):
`getMD5DigestStr(from, lines)` digests the first `lines` bytes of the host
buffer, i.e. the row-major bytes at flat offsets `0 .. lines-1` of the
`(lines+2) × (XSIZE+2)` byte array. -/
def hashedBytes (g : Grid) (lines : Nat) : List Nat :=
  (List.range lines).map fun b => g (b / (XSIZE + 2)) (b % (XSIZE + 2))

/-- The raw bytes of the final interior grid (rows `1..lines`, columns
`1..XSIZE`), row-major — the digest input named by the specification. -/
def interiorBytes (g : Grid) (lines : Nat) : List Nat :=
  (List.range lines).flatMap fun r => (List.range XSIZE).map fun c => g (r + 1) (c + 1)

/-- Outcome of the host-allocation prologue of `main` (ca.cu 142-150). -/
inductive HostAllocOutcome where
  | crashNullWrite : HostAllocOutcome
  | reportHostAllocFail : HostAllocOutcome
  | proceed : HostAllocOutcome
deriving DecidableEq

/-- The host-allocation prologue of `main` (ca.cu 142-150), in source order:
`from = calloc(...); to = calloc(...); initConfig(from, lines);` and only
then `if (from == NULL | to == NULL) { printf(...); exit(EXIT_FAILURE); }`.
If the `from` allocation failed, `initConfig` stores through the null
pointer before the check is reached (modelled as a crash); the reported
failure path is reachable only via a failed `to` allocation. -/
def hostAllocCheck (fromOk toOk : Bool) : HostAllocOutcome :=
  if fromOk = false then HostAllocOutcome.crashNullWrite
  else if fromOk = false ∨ toOk = false then HostAllocOutcome.reportHostAllocFail
  else HostAllocOutcome.proceed

/-! ### Generic lemmas about action folds -/

lemma runActs_append (g : Grid) (l1 l2 : List Act) :
    runActs g (l1 ++ l2) = runActs (runActs g l1) l2 :=
  List.foldl_append _ _ _ _

lemma runActs_cons (g : Grid) (a : Act) (l : List Act) :
    runActs g (a :: l) = runActs (Act.run g a) l := rfl

lemma gwrite_ne (g : Grid) (p : Nat × Nat) (v : Nat) (r c : Nat) (h : p ≠ (r, c)) :
    gwrite g p v r c = g r c := by
  unfold gwrite
  rw [if_neg]
  rintro ⟨rfl, rfl⟩
  exact h Prod.mk.eta.symm

lemma gwrite_self (g : Grid) (p : Nat × Nat) (v : Nat) :
    gwrite g p v p.1 p.2 = v := by
  unfold gwrite
  simp

/-- Cells that no action targets keep their value through the fold. -/
lemma runActs_frame (l : List Act) (g : Grid) (r c : Nat)
    (h : ∀ a ∈ l, a.tgt ≠ (r, c)) : runActs g l r c = g r c := by
  induction l generalizing g with
  | nil => rfl
  | cons a l ih =>
    rw [runActs_cons, ih _ fun b hb => h b (List.mem_cons_of_mem _ hb)]
    exact gwrite_ne _ _ _ _ _ (h a (List.mem_cons_self _ _))

/-- If every action that targets `(r, c)` copies from the fixed cell
`(qr, qc)`, no action targets `(qr, qc)`, and at least one action targets
`(r, c)`, then any interleaving leaves `(r, c)` holding the initial value
of `(qr, qc)`. -/
lemma runActs_stable_src (l : List Act) (g : Grid) (r c qr qc : Nat)
    (hsrc : ∀ a ∈ l, a.tgt ≠ (qr, qc))
    (hw : ∀ a ∈ l, a.tgt = (r, c) → a.src = (qr, qc))
    (hex : ∃ a ∈ l, a.tgt = (r, c)) :
    runActs g l r c = g qr qc := by
  induction l generalizing g with
  | nil =>
    rcases hex with ⟨a, ha, _⟩
    exact absurd ha (List.not_mem_nil a)
  | cons a l ih =>
    rw [runActs_cons]
    by_cases hl : ∃ b ∈ l, b.tgt = (r, c)
    · rw [ih _ (fun b hb => hsrc b (List.mem_cons_of_mem _ hb))
        (fun b hb => hw b (List.mem_cons_of_mem _ hb)) hl]
      exact gwrite_ne _ _ _ _ _ (hsrc a (List.mem_cons_self _ _))
    · have ha : a.tgt = (r, c) := by
        rcases hex with ⟨b, hb, hbt⟩
        rcases List.mem_cons.mp hb with h | h
        · rw [← h]; exact hbt
        · exact absurd ⟨b, h, hbt⟩ hl
      rw [runActs_frame l _ r c fun b hb hbt => hl ⟨b, hb, hbt⟩]
      have hs := hw a (List.mem_cons_self _ _) ha
      unfold Act.run
      rw [ha, hs]
      exact gwrite_self _ _ _

/-- Copy actions preserve grids whose cells are all boolean. -/
lemma runActs_boolGrid (l : List Act) (g : Grid) (h : boolGrid g) :
    boolGrid (runActs g l) := by
  induction l generalizing g with
  | nil => exact h
  | cons a l ih =>
    refine ih _ ?_
    intro y x
    unfold Act.run gwrite
    split
    · exact h _ _
    · exact h y x

/-! ### Membership facts for the launch thread list and the per-thread acts -/

lemma mem_allThreads {t : Nat × Nat} : t ∈ allThreads ↔ t.1 < NX ∧ t.2 < NY := by
  unfold allThreads
  simp only [List.mem_flatMap, List.mem_map, List.mem_range]
  constructor
  · rintro ⟨y, hy, x, hx, rfl⟩
    exact ⟨hx, hy⟩
  · rintro ⟨h1, h2⟩
    exact ⟨t.2, h2, t.1, h1, Prod.mk.eta⟩

lemma mem_ite_singleton {c : Prop} [Decidable c] {a b : Act}
    (h : a ∈ if c then [b] else []) : c ∧ a = b := by
  split at h
  · exact ⟨by assumption, List.mem_singleton.mp h⟩
  · exact absurd h (List.not_mem_nil a)

/-- Exhaustive characterization of the actions of one boundary thread. -/
lemma mem_bta {lines x y : Nat} {a : Act} (h : a ∈ boundaryThreadActs lines x y) :
    (y + 1 = lines ∧ a = ⟨(y + 2, x + 1), (1, x + 1)⟩) ∨
    (y = 0 ∧ a = ⟨(y, x + 1), (lines, x + 1)⟩) ∨
    (x = 0 ∧ a = ⟨(y + 1, x), (y + 1, XSIZE)⟩) ∨
    (x = XSIZE - 1 ∧ a = ⟨(y + 1, x + 2), (y + 1, 1)⟩) ∨
    (x = 0 ∧ y = 0 ∧
      (a = ⟨(0, 0), (lines, XSIZE)⟩ ∨ a = ⟨(0, XSIZE + 1), (lines, 1)⟩ ∨
       a = ⟨(lines + 1, 0), (1, XSIZE)⟩ ∨ a = ⟨(lines + 1, XSIZE + 1), (1, 1)⟩)) := by
  unfold boundaryThreadActs at h
  simp only [List.mem_append] at h
  rcases h with (((h | h) | h) | h) | h
  · exact Or.inl (mem_ite_singleton h)
  · exact Or.inr (Or.inl (mem_ite_singleton h))
  · exact Or.inr (Or.inr (Or.inl (mem_ite_singleton h)))
  · exact Or.inr (Or.inr (Or.inr (Or.inl (mem_ite_singleton h))))
  · refine Or.inr (Or.inr (Or.inr (Or.inr ?_)))
    split at h
    · rename_i hc
      refine ⟨hc.1, hc.2, ?_⟩
      simpa using h
    · exact absurd h (List.not_mem_nil a)

@[simp] lemma Act.tgt_mk (p q : Nat × Nat) : (Act.mk p q).tgt = p := rfl

@[simp] lemma Act.src_mk (p q : Nat × Nat) : (Act.mk p q).src = q := rfl

lemma XSIZE_eq : XSIZE = 1024 := rfl

lemma NX_eq : NX = 1024 := rfl

lemma NY_eq : NY = 131072 := rfl

lemma allThreads_nodup : allThreads.Nodup := by
  unfold allThreads
  rw [List.nodup_flatMap]
  constructor
  · intro y hy
    refine List.Nodup.map ?_ (List.nodup_range NX)
    intro a b hab
    simpa using congrArg Prod.fst hab
  · refine (List.pairwise_lt_range NY).imp ?_
    intro y1 y2 hlt t ht1 ht2
    simp only [List.mem_map, List.mem_range] at ht1 ht2
    rcases ht1 with ⟨x1, _, rfl⟩
    rcases ht2 with ⟨x2, _, h2⟩
    have := congrArg Prod.snd h2
    simp at this
    omega

/-- No boundary action ever targets an interior cell. -/
lemma bta_tgt_not_interior {lines x y r c : Nat} {a : Act}
    (ha : a ∈ boundaryThreadActs lines x y)
    (hr1 : 1 ≤ r) (hr2 : r ≤ lines) (hc1 : 1 ≤ c) (hc2 : c ≤ XSIZE) :
    a.tgt ≠ (r, c) := by
  have hX : XSIZE = 1024 := rfl
  rcases mem_bta ha with ⟨hy, rfl⟩ | ⟨hy, rfl⟩ | ⟨hx, rfl⟩ | ⟨hx, rfl⟩ | ⟨hx, hy, hc⟩
  · intro he
    simp only [Act.tgt_mk, Prod.mk.injEq] at he
    omega
  · intro he
    simp only [Act.tgt_mk, Prod.mk.injEq] at he
    omega
  · intro he
    simp only [Act.tgt_mk, Prod.mk.injEq] at he
    omega
  · intro he
    simp only [Act.tgt_mk, Prod.mk.injEq] at he
    omega
  · rcases hc with rfl | rfl | rfl | rfl <;>
      · intro he
        simp only [Act.tgt_mk, Prod.mk.injEq] at he
        omega

/-! ### Values of the halo cells after any admissible boundary execution -/

/-- Interior cells are untouched by the boundary kernel, under every
thread interleaving. -/
lemma boundaryExec_interior (lines : Nat) (order : List (Nat × Nat)) (g : Grid)
    (r c : Nat) (hr1 : 1 ≤ r) (hr2 : r ≤ lines) (hc1 : 1 ≤ c) (hc2 : c ≤ XSIZE) :
    boundaryExec lines order g r c = g r c := by
  unfold boundaryExec
  apply runActs_frame
  intro a ha
  rcases List.mem_flatMap.mp ha with ⟨t, _, hat⟩
  exact bta_tgt_not_interior hat hr1 hr2 hc1 hc2

/-- Top halo row: cell `(0, c)` receives interior cell `(lines, c)`. -/
lemma bcell_top {lines c : Nat} (order : List (Nat × Nat)) (hperm : order.Perm allThreads)
    (h1 : 1 ≤ lines) (hc1 : 1 ≤ c) (hc2 : c ≤ XSIZE) (g : Grid) :
    boundaryExec lines order g 0 c = g lines c := by
  have hX : XSIZE = 1024 := rfl
  unfold boundaryExec
  apply runActs_stable_src
  · intro a ha
    rcases List.mem_flatMap.mp ha with ⟨t, _, hat⟩
    exact bta_tgt_not_interior hat h1 (le_refl lines) hc1 hc2
  · intro a ha hat
    rcases List.mem_flatMap.mp ha with ⟨t, _, hmem⟩
    rcases mem_bta hmem with ⟨hy, rfl⟩ | ⟨hy, rfl⟩ | ⟨hx, rfl⟩ | ⟨hx, rfl⟩ | ⟨hx, hy, hc⟩
    · simp only [Act.tgt_mk, Prod.mk.injEq] at hat
      omega
    · simp only [Act.tgt_mk, Prod.mk.injEq] at hat
      simp only [Act.src_mk, Prod.mk.injEq]
      exact ⟨trivial, hat.2⟩
    · simp only [Act.tgt_mk, Prod.mk.injEq] at hat
      omega
    · simp only [Act.tgt_mk, Prod.mk.injEq] at hat
      omega
    · rcases hc with rfl | rfl | rfl | rfl <;>
        (simp only [Act.tgt_mk, Prod.mk.injEq] at hat; omega)
  · refine ⟨⟨(0, c), (lines, c)⟩, ?_, rfl⟩
    apply List.mem_flatMap.mpr
    refine ⟨(c - 1, 0), hperm.mem_iff.mpr (mem_allThreads.mpr ⟨?_, ?_⟩), ?_⟩
    · show c - 1 < NX
      have : NX = 1024 := rfl
      omega
    · show (0 : Nat) < NY
      have : NY = 131072 := rfl
      omega
    · have he : c - 1 + 1 = c := by omega
      unfold boundaryThreadActs
      simp only [he]
      apply List.mem_append_left
      apply List.mem_append_left
      apply List.mem_append_left
      apply List.mem_append_right
      simp

/-- Bottom halo row: cell `(lines+1, c)` receives interior cell `(1, c)`. -/
lemma bcell_bottom {lines c : Nat} (order : List (Nat × Nat)) (hperm : order.Perm allThreads)
    (h1 : 1 ≤ lines) (h2 : lines ≤ NY) (hc1 : 1 ≤ c) (hc2 : c ≤ XSIZE) (g : Grid) :
    boundaryExec lines order g (lines + 1) c = g 1 c := by
  have hX : XSIZE = 1024 := rfl
  unfold boundaryExec
  apply runActs_stable_src
  · intro a ha
    rcases List.mem_flatMap.mp ha with ⟨t, _, hat⟩
    exact bta_tgt_not_interior hat (le_refl 1) h1 hc1 hc2
  · intro a ha hat
    rcases List.mem_flatMap.mp ha with ⟨t, _, hmem⟩
    rcases mem_bta hmem with ⟨hy, rfl⟩ | ⟨hy, rfl⟩ | ⟨hx, rfl⟩ | ⟨hx, rfl⟩ | ⟨hx, hy, hc⟩
    · simp only [Act.tgt_mk, Prod.mk.injEq] at hat
      simp only [Act.src_mk, Prod.mk.injEq]
      exact ⟨trivial, hat.2⟩
    · simp only [Act.tgt_mk, Prod.mk.injEq] at hat
      omega
    · simp only [Act.tgt_mk, Prod.mk.injEq] at hat
      omega
    · simp only [Act.tgt_mk, Prod.mk.injEq] at hat
      omega
    · rcases hc with rfl | rfl | rfl | rfl <;>
        (simp only [Act.tgt_mk, Prod.mk.injEq] at hat; omega)
  · refine ⟨⟨(lines + 1, c), (1, c)⟩, ?_, rfl⟩
    apply List.mem_flatMap.mpr
    refine ⟨(c - 1, lines - 1), hperm.mem_iff.mpr (mem_allThreads.mpr ⟨?_, ?_⟩), ?_⟩
    · show c - 1 < NX
      have : NX = 1024 := rfl
      omega
    · show lines - 1 < NY
      omega
    · have he : c - 1 + 1 = c := by omega
      have hy1 : lines - 1 + 1 = lines := by omega
      have hy2 : lines - 1 + 2 = lines + 1 := by omega
      unfold boundaryThreadActs
      simp only [he, hy1, hy2]
      apply List.mem_append_left
      apply List.mem_append_left
      apply List.mem_append_left
      apply List.mem_append_left
      simp

/-- Left halo column: cell `(r, 0)` of an interior row receives `(r, XSIZE)`. -/
lemma bcell_left {lines r : Nat} (order : List (Nat × Nat)) (hperm : order.Perm allThreads)
    (hr1 : 1 ≤ r) (hr2 : r ≤ lines) (h2 : lines ≤ NY) (g : Grid) :
    boundaryExec lines order g r 0 = g r XSIZE := by
  have hX : XSIZE = 1024 := rfl
  unfold boundaryExec
  apply runActs_stable_src
  · intro a ha
    rcases List.mem_flatMap.mp ha with ⟨t, _, hat⟩
    exact bta_tgt_not_interior hat hr1 hr2 (by omega) (le_refl XSIZE)
  · intro a ha hat
    rcases List.mem_flatMap.mp ha with ⟨t, _, hmem⟩
    rcases mem_bta hmem with ⟨hy, rfl⟩ | ⟨hy, rfl⟩ | ⟨hx, rfl⟩ | ⟨hx, rfl⟩ | ⟨hx, hy, hc⟩
    · simp only [Act.tgt_mk, Prod.mk.injEq] at hat
      omega
    · simp only [Act.tgt_mk, Prod.mk.injEq] at hat
      omega
    · simp only [Act.tgt_mk, Prod.mk.injEq] at hat
      simp only [Act.src_mk, Prod.mk.injEq]
      exact ⟨hat.1, trivial⟩
    · simp only [Act.tgt_mk, Prod.mk.injEq] at hat
      omega
    · rcases hc with rfl | rfl | rfl | rfl <;>
        (simp only [Act.tgt_mk, Prod.mk.injEq] at hat; omega)
  · refine ⟨⟨(r, 0), (r, XSIZE)⟩, ?_, rfl⟩
    apply List.mem_flatMap.mpr
    refine ⟨(0, r - 1), hperm.mem_iff.mpr (mem_allThreads.mpr ⟨?_, ?_⟩), ?_⟩
    · show (0 : Nat) < NX
      have : NX = 1024 := rfl
      omega
    · show r - 1 < NY
      omega
    · have hr : r - 1 + 1 = r := by omega
      unfold boundaryThreadActs
      simp only [hr]
      apply List.mem_append_left
      apply List.mem_append_left
      apply List.mem_append_right
      simp

/-- Right halo column: cell `(r, XSIZE+1)` of an interior row receives `(r, 1)`. -/
lemma bcell_right {lines r : Nat} (order : List (Nat × Nat)) (hperm : order.Perm allThreads)
    (hr1 : 1 ≤ r) (hr2 : r ≤ lines) (h2 : lines ≤ NY) (g : Grid) :
    boundaryExec lines order g r (XSIZE + 1) = g r 1 := by
  have hX : XSIZE = 1024 := rfl
  unfold boundaryExec
  apply runActs_stable_src
  · intro a ha
    rcases List.mem_flatMap.mp ha with ⟨t, _, hat⟩
    exact bta_tgt_not_interior hat hr1 hr2 (le_refl 1) (by omega)
  · intro a ha hat
    rcases List.mem_flatMap.mp ha with ⟨t, ht, hmem⟩
    have hb := mem_allThreads.mp (hperm.mem_iff.mp ht)
    have hNXv : NX = 1024 := rfl
    rcases mem_bta hmem with ⟨hy, rfl⟩ | ⟨hy, rfl⟩ | ⟨hx, rfl⟩ | ⟨hx, rfl⟩ | ⟨hx, hy, hc⟩
    · simp only [Act.tgt_mk, Prod.mk.injEq] at hat
      omega
    · simp only [Act.tgt_mk, Prod.mk.injEq] at hat
      omega
    · simp only [Act.tgt_mk, Prod.mk.injEq] at hat
      omega
    · simp only [Act.tgt_mk, Prod.mk.injEq] at hat
      simp only [Act.src_mk, Prod.mk.injEq]
      exact ⟨hat.1, trivial⟩
    · rcases hc with rfl | rfl | rfl | rfl <;>
        (simp only [Act.tgt_mk, Prod.mk.injEq] at hat; omega)
  · refine ⟨⟨(r, XSIZE + 1), (r, 1)⟩, ?_, rfl⟩
    apply List.mem_flatMap.mpr
    refine ⟨(XSIZE - 1, r - 1), hperm.mem_iff.mpr (mem_allThreads.mpr ⟨?_, ?_⟩), ?_⟩
    · show XSIZE - 1 < NX
      have : NX = 1024 := rfl
      omega
    · show r - 1 < NY
      omega
    · have hr : r - 1 + 1 = r := by omega
      have hx2 : XSIZE - 1 + 2 = XSIZE + 1 := by omega
      unfold boundaryThreadActs
      simp only [hr, hx2]
      apply List.mem_append_left
      apply List.mem_append_right
      simp

/-- Top-left halo corner: cell `(0, 0)` receives interior cell `(lines, XSIZE)`. -/
lemma bcell_tl {lines : Nat} (order : List (Nat × Nat)) (hperm : order.Perm allThreads)
    (h1 : 1 ≤ lines) (g : Grid) :
    boundaryExec lines order g 0 0 = g lines XSIZE := by
  have hX : XSIZE = 1024 := rfl
  unfold boundaryExec
  apply runActs_stable_src
  · intro a ha
    rcases List.mem_flatMap.mp ha with ⟨t, _, hat⟩
    exact bta_tgt_not_interior hat h1 (le_refl lines) (by omega) (le_refl XSIZE)
  · intro a ha hat
    rcases List.mem_flatMap.mp ha with ⟨t, _, hmem⟩
    rcases mem_bta hmem with ⟨hy, rfl⟩ | ⟨hy, rfl⟩ | ⟨hx, rfl⟩ | ⟨hx, rfl⟩ | ⟨hx, hy, hc⟩
    · simp only [Act.tgt_mk, Prod.mk.injEq] at hat
      omega
    · simp only [Act.tgt_mk, Prod.mk.injEq] at hat
      omega
    · simp only [Act.tgt_mk, Prod.mk.injEq] at hat
      omega
    · simp only [Act.tgt_mk, Prod.mk.injEq] at hat
      omega
    · rcases hc with rfl | rfl | rfl | rfl
      · simp only [Act.src_mk]
      · simp only [Act.tgt_mk, Prod.mk.injEq] at hat
        omega
      · simp only [Act.tgt_mk, Prod.mk.injEq] at hat
        omega
      · simp only [Act.tgt_mk, Prod.mk.injEq] at hat
        omega
  · refine ⟨⟨(0, 0), (lines, XSIZE)⟩, ?_, rfl⟩
    apply List.mem_flatMap.mpr
    refine ⟨(0, 0), hperm.mem_iff.mpr (mem_allThreads.mpr ⟨?_, ?_⟩), ?_⟩
    · show (0 : Nat) < NX
      have : NX = 1024 := rfl
      omega
    · show (0 : Nat) < NY
      have : NY = 131072 := rfl
      omega
    · unfold boundaryThreadActs
      apply List.mem_append_right
      simp

/-- Top-right halo corner: cell `(0, XSIZE+1)` receives interior cell `(lines, 1)`. -/
lemma bcell_tr {lines : Nat} (order : List (Nat × Nat)) (hperm : order.Perm allThreads)
    (h1 : 1 ≤ lines) (g : Grid) :
    boundaryExec lines order g 0 (XSIZE + 1) = g lines 1 := by
  have hX : XSIZE = 1024 := rfl
  unfold boundaryExec
  apply runActs_stable_src
  · intro a ha
    rcases List.mem_flatMap.mp ha with ⟨t, _, hat⟩
    exact bta_tgt_not_interior hat h1 (le_refl lines) (le_refl 1) (by omega)
  · intro a ha hat
    rcases List.mem_flatMap.mp ha with ⟨t, ht, hmem⟩
    have hb := mem_allThreads.mp (hperm.mem_iff.mp ht)
    have hNXv : NX = 1024 := rfl
    rcases mem_bta hmem with ⟨hy, rfl⟩ | ⟨hy, rfl⟩ | ⟨hx, rfl⟩ | ⟨hx, rfl⟩ | ⟨hx, hy, hc⟩
    · simp only [Act.tgt_mk, Prod.mk.injEq] at hat
      omega
    · simp only [Act.tgt_mk, Prod.mk.injEq] at hat
      omega
    · simp only [Act.tgt_mk, Prod.mk.injEq] at hat
      omega
    · simp only [Act.tgt_mk, Prod.mk.injEq] at hat
      omega
    · rcases hc with rfl | rfl | rfl | rfl
      · simp only [Act.tgt_mk, Prod.mk.injEq] at hat
        omega
      · simp only [Act.src_mk]
      · simp only [Act.tgt_mk, Prod.mk.injEq] at hat
        omega
      · simp only [Act.tgt_mk, Prod.mk.injEq] at hat
        omega
  · refine ⟨⟨(0, XSIZE + 1), (lines, 1)⟩, ?_, rfl⟩
    apply List.mem_flatMap.mpr
    refine ⟨(0, 0), hperm.mem_iff.mpr (mem_allThreads.mpr ⟨?_, ?_⟩), ?_⟩
    · show (0 : Nat) < NX
      have : NX = 1024 := rfl
      omega
    · show (0 : Nat) < NY
      have : NY = 131072 := rfl
      omega
    · unfold boundaryThreadActs
      apply List.mem_append_right
      simp

/-- The canonical thread list split at row `k`. -/
lemma allThreads_split (k : Nat) (hk : k ≤ NY) :
    allThreads = ((List.range k).flatMap fun y => (List.range NX).map fun x => (x, y)) ++
      (((List.range (NY - k)).map (k + ·)).flatMap fun y =>
        (List.range NX).map fun x => (x, y)) := by
  unfold allThreads
  conv_lhs => rw [show NY = k + (NY - k) by omega]
  rw [List.range_add, List.flatMap_append]

/-- Bottom-left halo corner under the canonical interleaving: the rogue
thread `(0, lines)` re-copies the corner from halo cell `(lines+1, XSIZE)`,
but in the canonical order that cell has already been refreshed to
`g 1 XSIZE` by the thread `(XSIZE-1, lines-1)`, so the corner still ends up
holding the wrapped interior value. -/
lemma bcell_bl_canon {lines : Nat} (h1 : 1 ≤ lines) (h2 : lines ≤ NY) (g : Grid) :
    boundaryCanon lines g (lines + 1) 0 = g 1 XSIZE := by
  have hX : XSIZE = 1024 := rfl
  have hNXv : NX = 1024 := rfl
  have hNYv : NY = 131072 := rfl
  unfold boundaryCanon boundaryExec
  rcases Nat.lt_or_ge lines NY with hlt | hge
  · rw [allThreads_split lines h2, List.flatMap_append, runActs_append]
    have hlow : runActs g (((List.range lines).flatMap fun y =>
        (List.range NX).map fun x => (x, y)).flatMap
          fun t => boundaryThreadActs lines t.1 t.2) (lines + 1) XSIZE = g 1 XSIZE := by
      apply runActs_stable_src
      · intro a ha
        rcases List.mem_flatMap.mp ha with ⟨t, _, hat⟩
        exact bta_tgt_not_interior hat (le_refl 1) h1 (by omega) (le_refl XSIZE)
      · intro a ha hat
        rcases List.mem_flatMap.mp ha with ⟨t, ht, hmem⟩
        rcases List.mem_flatMap.mp ht with ⟨y, hy, hty⟩
        rcases List.mem_map.mp hty with ⟨x, hx, rfl⟩
        rcases mem_bta hmem with ⟨hy1, rfl⟩ | ⟨hy1, rfl⟩ | ⟨hx1, rfl⟩ | ⟨hx1, rfl⟩ |
          ⟨hx1, hy1, hc⟩
        · simp only [Act.tgt_mk, Prod.mk.injEq] at hat
          simp only [Act.src_mk, Prod.mk.injEq]
          exact ⟨trivial, hat.2⟩
        · simp only [Act.tgt_mk, Prod.mk.injEq] at hat
          omega
        · simp only [Act.tgt_mk, Prod.mk.injEq] at hat
          omega
        · simp only [Act.tgt_mk, Prod.mk.injEq] at hat
          omega
        · rcases hc with rfl | rfl | rfl | rfl <;>
            (simp only [Act.tgt_mk, Prod.mk.injEq] at hat; omega)
      · refine ⟨⟨(lines + 1, XSIZE), (1, XSIZE)⟩, ?_, rfl⟩
        apply List.mem_flatMap.mpr
        refine ⟨(XSIZE - 1, lines - 1), ?_, ?_⟩
        · apply List.mem_flatMap.mpr
          refine ⟨lines - 1, List.mem_range.mpr (by omega), ?_⟩
          exact List.mem_map.mpr ⟨XSIZE - 1, List.mem_range.mpr (by omega), rfl⟩
        · have hy1 : lines - 1 + 1 = lines := by omega
          have hy2 : lines - 1 + 2 = lines + 1 := by omega
          have hx1 : XSIZE - 1 + 1 = XSIZE := by omega
          unfold boundaryThreadActs
          simp only [hy1, hy2, hx1]
          apply List.mem_append_left
          apply List.mem_append_left
          apply List.mem_append_left
          apply List.mem_append_left
          simp
    have hhigh : runActs (runActs g (((List.range lines).flatMap fun y =>
        (List.range NX).map fun x => (x, y)).flatMap
          fun t => boundaryThreadActs lines t.1 t.2))
        ((((List.range (NY - lines)).map (lines + ·)).flatMap fun y =>
          (List.range NX).map fun x => (x, y)).flatMap
            fun t => boundaryThreadActs lines t.1 t.2) (lines + 1) 0 =
        runActs g (((List.range lines).flatMap fun y =>
        (List.range NX).map fun x => (x, y)).flatMap
          fun t => boundaryThreadActs lines t.1 t.2) (lines + 1) XSIZE := by
      apply runActs_stable_src
      · intro a ha
        rcases List.mem_flatMap.mp ha with ⟨t, ht, hmem⟩
        rcases List.mem_flatMap.mp ht with ⟨y, hy, hty⟩
        rcases List.mem_map.mp hty with ⟨x, hx, rfl⟩
        rcases List.mem_map.mp hy with ⟨k, hk, rfl⟩
        rcases mem_bta hmem with ⟨hy1, rfl⟩ | ⟨hy1, rfl⟩ | ⟨hx1, rfl⟩ | ⟨hx1, rfl⟩ |
          ⟨hx1, hy1, hc⟩
        · simp only [Act.tgt_mk]
          intro he
          rw [Prod.mk.injEq] at he
          omega
        · simp only [Act.tgt_mk]
          intro he
          rw [Prod.mk.injEq] at he
          omega
        · simp only [Act.tgt_mk]
          intro he
          rw [Prod.mk.injEq] at he
          omega
        · simp only [Act.tgt_mk]
          intro he
          rw [Prod.mk.injEq] at he
          omega
        · rcases hc with rfl | rfl | rfl | rfl <;>
            · simp only [Act.tgt_mk]
              intro he
              rw [Prod.mk.injEq] at he
              omega
      · intro a ha hat
        rcases List.mem_flatMap.mp ha with ⟨t, ht, hmem⟩
        rcases List.mem_flatMap.mp ht with ⟨y, hy, hty⟩
        rcases List.mem_map.mp hty with ⟨x, hx, rfl⟩
        rcases List.mem_map.mp hy with ⟨k, hk, rfl⟩
        rcases mem_bta hmem with ⟨hy1, rfl⟩ | ⟨hy1, rfl⟩ | ⟨hx1, rfl⟩ | ⟨hx1, rfl⟩ |
          ⟨hx1, hy1, hc⟩
        · simp only [Act.tgt_mk, Prod.mk.injEq] at hat
          omega
        · simp only [Act.tgt_mk, Prod.mk.injEq] at hat
          omega
        · simp only [Act.tgt_mk, Prod.mk.injEq] at hat
          simp only [Act.src_mk, Prod.mk.injEq]
          exact ⟨hat.1, trivial⟩
        · simp only [Act.tgt_mk, Prod.mk.injEq] at hat
          omega
        · rcases hc with rfl | rfl | rfl | rfl <;>
            (simp only [Act.tgt_mk, Prod.mk.injEq] at hat; omega)
      · refine ⟨⟨(lines + 1, 0), (lines + 1, XSIZE)⟩, ?_, rfl⟩
        apply List.mem_flatMap.mpr
        refine ⟨(0, lines), ?_, ?_⟩
        · apply List.mem_flatMap.mpr
          refine ⟨lines, ?_, ?_⟩
          · exact List.mem_map.mpr ⟨0, List.mem_range.mpr (by omega), by omega⟩
          · exact List.mem_map.mpr ⟨0, List.mem_range.mpr (by omega), rfl⟩
        · unfold boundaryThreadActs
          have hy1 : ¬(lines + 1 = lines) := by omega
          have hy2 : ¬(lines = 0) := by omega
          rw [if_neg hy1, if_neg hy2]
          apply List.mem_append_left
          apply List.mem_append_left
          apply List.mem_append_right
          simp
    rw [hhigh, hlow]
  · apply runActs_stable_src
    · intro a ha
      rcases List.mem_flatMap.mp ha with ⟨t, _, hat⟩
      exact bta_tgt_not_interior hat (le_refl 1) h1 (by omega) (le_refl XSIZE)
    · intro a ha hat
      rcases List.mem_flatMap.mp ha with ⟨t, ht, hmem⟩
      have hb := mem_allThreads.mp ht
      rcases mem_bta hmem with ⟨hy1, rfl⟩ | ⟨hy1, rfl⟩ | ⟨hx1, rfl⟩ | ⟨hx1, rfl⟩ |
        ⟨hx1, hy1, hc⟩
      · simp only [Act.tgt_mk, Prod.mk.injEq] at hat
        omega
      · simp only [Act.tgt_mk, Prod.mk.injEq] at hat
        omega
      · simp only [Act.tgt_mk, Prod.mk.injEq] at hat
        omega
      · simp only [Act.tgt_mk, Prod.mk.injEq] at hat
        omega
      · rcases hc with rfl | rfl | rfl | rfl
        · simp only [Act.tgt_mk, Prod.mk.injEq] at hat
          omega
        · simp only [Act.tgt_mk, Prod.mk.injEq] at hat
          omega
        · simp only [Act.src_mk]
        · simp only [Act.tgt_mk, Prod.mk.injEq] at hat
          omega
    · refine ⟨⟨(lines + 1, 0), (1, XSIZE)⟩, ?_, rfl⟩
      apply List.mem_flatMap.mpr
      refine ⟨(0, 0), mem_allThreads.mpr ⟨by omega, by omega⟩, ?_⟩
      unfold boundaryThreadActs
      apply List.mem_append_right
      simp

/-- Bottom-right halo corner under the canonical interleaving: the rogue
thread `(XSIZE-1, lines)` re-copies the corner from halo cell
`(lines+1, 1)`, which the canonical order has already refreshed to `g 1 1`
via thread `(0, lines-1)`. -/
lemma bcell_br_canon {lines : Nat} (h1 : 1 ≤ lines) (h2 : lines ≤ NY) (g : Grid) :
    boundaryCanon lines g (lines + 1) (XSIZE + 1) = g 1 1 := by
  have hX : XSIZE = 1024 := rfl
  have hNXv : NX = 1024 := rfl
  have hNYv : NY = 131072 := rfl
  unfold boundaryCanon boundaryExec
  rcases Nat.lt_or_ge lines NY with hlt | hge
  · rw [allThreads_split lines h2, List.flatMap_append, runActs_append]
    have hlow : runActs g (((List.range lines).flatMap fun y =>
        (List.range NX).map fun x => (x, y)).flatMap
          fun t => boundaryThreadActs lines t.1 t.2) (lines + 1) 1 = g 1 1 := by
      apply runActs_stable_src
      · intro a ha
        rcases List.mem_flatMap.mp ha with ⟨t, _, hat⟩
        exact bta_tgt_not_interior hat (le_refl 1) h1 (le_refl 1) (by omega)
      · intro a ha hat
        rcases List.mem_flatMap.mp ha with ⟨t, ht, hmem⟩
        rcases List.mem_flatMap.mp ht with ⟨y, hy, hty⟩
        rcases List.mem_map.mp hty with ⟨x, hx, rfl⟩
        rcases mem_bta hmem with ⟨hy1, rfl⟩ | ⟨hy1, rfl⟩ | ⟨hx1, rfl⟩ | ⟨hx1, rfl⟩ |
          ⟨hx1, hy1, hc⟩
        · simp only [Act.tgt_mk, Prod.mk.injEq] at hat
          simp only [Act.src_mk, Prod.mk.injEq]
          exact ⟨trivial, hat.2⟩
        · simp only [Act.tgt_mk, Prod.mk.injEq] at hat
          omega
        · simp only [Act.tgt_mk, Prod.mk.injEq] at hat
          omega
        · simp only [Act.tgt_mk, Prod.mk.injEq] at hat
          omega
        · rcases hc with rfl | rfl | rfl | rfl <;>
            (simp only [Act.tgt_mk, Prod.mk.injEq] at hat; omega)
      · refine ⟨⟨(lines + 1, 1), (1, 1)⟩, ?_, rfl⟩
        apply List.mem_flatMap.mpr
        refine ⟨(0, lines - 1), ?_, ?_⟩
        · apply List.mem_flatMap.mpr
          refine ⟨lines - 1, List.mem_range.mpr (by omega), ?_⟩
          exact List.mem_map.mpr ⟨0, List.mem_range.mpr (by omega), rfl⟩
        · have hy1 : lines - 1 + 1 = lines := by omega
          have hy2 : lines - 1 + 2 = lines + 1 := by omega
          unfold boundaryThreadActs
          simp only [hy1, hy2]
          apply List.mem_append_left
          apply List.mem_append_left
          apply List.mem_append_left
          apply List.mem_append_left
          simp
    have hhigh : runActs (runActs g (((List.range lines).flatMap fun y =>
        (List.range NX).map fun x => (x, y)).flatMap
          fun t => boundaryThreadActs lines t.1 t.2))
        ((((List.range (NY - lines)).map (lines + ·)).flatMap fun y =>
          (List.range NX).map fun x => (x, y)).flatMap
            fun t => boundaryThreadActs lines t.1 t.2) (lines + 1) (XSIZE + 1) =
        runActs g (((List.range lines).flatMap fun y =>
        (List.range NX).map fun x => (x, y)).flatMap
          fun t => boundaryThreadActs lines t.1 t.2) (lines + 1) 1 := by
      apply runActs_stable_src
      · intro a ha
        rcases List.mem_flatMap.mp ha with ⟨t, ht, hmem⟩
        rcases List.mem_flatMap.mp ht with ⟨y, hy, hty⟩
        rcases List.mem_map.mp hty with ⟨x, hx, rfl⟩
        rcases List.mem_map.mp hy with ⟨k, hk, rfl⟩
        rcases mem_bta hmem with ⟨hy1, rfl⟩ | ⟨hy1, rfl⟩ | ⟨hx1, rfl⟩ | ⟨hx1, rfl⟩ |
          ⟨hx1, hy1, hc⟩
        · simp only [Act.tgt_mk]
          intro he
          rw [Prod.mk.injEq] at he
          omega
        · simp only [Act.tgt_mk]
          intro he
          rw [Prod.mk.injEq] at he
          omega
        · simp only [Act.tgt_mk]
          intro he
          rw [Prod.mk.injEq] at he
          omega
        · simp only [Act.tgt_mk]
          intro he
          rw [Prod.mk.injEq] at he
          omega
        · rcases hc with rfl | rfl | rfl | rfl <;>
            · simp only [Act.tgt_mk]
              intro he
              rw [Prod.mk.injEq] at he
              omega
      · intro a ha hat
        rcases List.mem_flatMap.mp ha with ⟨t, ht, hmem⟩
        rcases List.mem_flatMap.mp ht with ⟨y, hy, hty⟩
        rcases List.mem_map.mp hty with ⟨x, hx, rfl⟩
        rcases List.mem_map.mp hy with ⟨k, hk, rfl⟩
        rcases mem_bta hmem with ⟨hy1, rfl⟩ | ⟨hy1, rfl⟩ | ⟨hx1, rfl⟩ | ⟨hx1, rfl⟩ |
          ⟨hx1, hy1, hc⟩
        · simp only [Act.tgt_mk, Prod.mk.injEq] at hat
          omega
        · simp only [Act.tgt_mk, Prod.mk.injEq] at hat
          omega
        · simp only [Act.tgt_mk, Prod.mk.injEq] at hat
          omega
        · simp only [Act.tgt_mk, Prod.mk.injEq] at hat
          simp only [Act.src_mk, Prod.mk.injEq]
          exact ⟨hat.1, trivial⟩
        · rcases hc with rfl | rfl | rfl | rfl <;>
            (simp only [Act.tgt_mk, Prod.mk.injEq] at hat; omega)
      · refine ⟨⟨(lines + 1, XSIZE + 1), (lines + 1, 1)⟩, ?_, rfl⟩
        apply List.mem_flatMap.mpr
        refine ⟨(XSIZE - 1, lines), ?_, ?_⟩
        · apply List.mem_flatMap.mpr
          refine ⟨lines, ?_, ?_⟩
          · exact List.mem_map.mpr ⟨0, List.mem_range.mpr (by omega), by omega⟩
          · exact List.mem_map.mpr ⟨XSIZE - 1, List.mem_range.mpr (by omega), rfl⟩
        · unfold boundaryThreadActs
          have hy1 : ¬(lines + 1 = lines) := by omega
          have hy2 : ¬(lines = 0) := by omega
          have hx2 : XSIZE - 1 + 2 = XSIZE + 1 := by omega
          rw [if_neg hy1, if_neg hy2]
          simp only [hx2]
          apply List.mem_append_left
          apply List.mem_append_right
          simp
    rw [hhigh, hlow]
  · apply runActs_stable_src
    · intro a ha
      rcases List.mem_flatMap.mp ha with ⟨t, _, hat⟩
      exact bta_tgt_not_interior hat (le_refl 1) h1 (le_refl 1) (by omega)
    · intro a ha hat
      rcases List.mem_flatMap.mp ha with ⟨t, ht, hmem⟩
      have hb := mem_allThreads.mp ht
      rcases mem_bta hmem with ⟨hy1, rfl⟩ | ⟨hy1, rfl⟩ | ⟨hx1, rfl⟩ | ⟨hx1, rfl⟩ |
        ⟨hx1, hy1, hc⟩
      · simp only [Act.tgt_mk, Prod.mk.injEq] at hat
        omega
      · simp only [Act.tgt_mk, Prod.mk.injEq] at hat
        omega
      · simp only [Act.tgt_mk, Prod.mk.injEq] at hat
        omega
      · simp only [Act.tgt_mk, Prod.mk.injEq] at hat
        omega
      · rcases hc with rfl | rfl | rfl | rfl
        · simp only [Act.tgt_mk, Prod.mk.injEq] at hat
          omega
        · simp only [Act.tgt_mk, Prod.mk.injEq] at hat
          omega
        · simp only [Act.tgt_mk, Prod.mk.injEq] at hat
          omega
        · simp only [Act.src_mk]
    · refine ⟨⟨(lines + 1, XSIZE + 1), (1, 1)⟩, ?_, rfl⟩
      apply List.mem_flatMap.mpr
      refine ⟨(0, 0), mem_allThreads.mpr ⟨by omega, by omega⟩, ?_⟩
      unfold boundaryThreadActs
      apply List.mem_append_right
      simp

/-! ### The canonical boundary execution realizes torus wrap on the read region -/

/-- Torus wrap of a row index of the read region (rows `0 .. lines+1`). -/
def wrapRow (lines r : Nat) : Nat :=
  if r = 0 then lines else if r = lines + 1 then 1 else r

/-- Torus wrap of a column index of the read region (columns `0 .. XSIZE+1`). -/
def wrapCol (c : Nat) : Nat :=
  if c = 0 then XSIZE else if c = XSIZE + 1 then 1 else c

lemma wrapRow_interior {lines r : Nat} (h1 : 1 ≤ lines) (hr : r ≤ lines + 1) :
    1 ≤ wrapRow lines r ∧ wrapRow lines r ≤ lines := by
  unfold wrapRow
  split_ifs <;> omega

lemma wrapCol_interior {c : Nat} (hc : c ≤ XSIZE + 1) :
    1 ≤ wrapCol c ∧ wrapCol c ≤ XSIZE := by
  have hX : XSIZE = 1024 := rfl
  unfold wrapCol
  split_ifs <;> omega

/-- After the canonical boundary execution, every cell of the region read by
the interior transition (rows `0..lines+1`, columns `0..XSIZE+1`) holds the
torus-wrapped interior value of the argument grid. -/
lemma boundaryCanon_box {lines : Nat} (h1 : 1 ≤ lines) (h2 : lines ≤ NY) (g : Grid)
    (r c : Nat) (hr : r ≤ lines + 1) (hc : c ≤ XSIZE + 1) :
    boundaryCanon lines g r c = g (wrapRow lines r) (wrapCol c) := by
  have hX : XSIZE = 1024 := rfl
  unfold wrapRow wrapCol
  split_ifs with h01 h02 h03 h04 h05 h06 h07 h08
  · subst h01 h02
    exact bcell_tl allThreads (List.Perm.refl _) h1 g
  · subst h01 h03
    exact bcell_tr allThreads (List.Perm.refl _) h1 g
  · subst h01
    exact bcell_top allThreads (List.Perm.refl _) h1 (by omega) (by omega) g
  · subst h04 h05
    exact bcell_bl_canon h1 h2 g
  · subst h04 h06
    exact bcell_br_canon h1 h2 g
  · subst h04
    exact bcell_bottom allThreads (List.Perm.refl _) h1 h2 (by omega) (by omega) g
  · subst h07
    exact bcell_left allThreads (List.Perm.refl _) (by omega) (by omega) h2 g
  · subst h08
    exact bcell_right allThreads (List.Perm.refl _) (by omega) (by omega) h2 g
  · exact boundaryExec_interior lines allThreads g r c (by omega) (by omega)
      (by omega) (by omega)

/-! ### The driver loop computes iterates of the step function on the interior -/

/-- Agreement of two grids on the interior region. -/
def interiorEq (lines : Nat) (g1 g2 : Grid) : Prop :=
  ∀ y x : Nat, 1 ≤ y → y ≤ lines → 1 ≤ x → x ≤ XSIZE → g1 y x = g2 y x

lemma neighSum_boundaryCanon_congr {lines : Nat} (h1 : 1 ≤ lines) (h2 : lines ≤ NY)
    {g1 g2 : Grid} (h : interiorEq lines g1 g2) {y x : Nat}
    (hy1 : 1 ≤ y) (hy2 : y ≤ lines) (hx1 : 1 ≤ x) (hx2 : x ≤ XSIZE) :
    neighSum (boundaryCanon lines g1) y x = neighSum (boundaryCanon lines g2) y x := by
  have hcell : ∀ r c, r ≤ lines + 1 → c ≤ XSIZE + 1 →
      boundaryCanon lines g1 r c = boundaryCanon lines g2 r c := by
    intro r c hr hc
    rw [boundaryCanon_box h1 h2 g1 r c hr hc, boundaryCanon_box h1 h2 g2 r c hr hc]
    rcases wrapRow_interior h1 hr with ⟨w1, w2⟩
    rcases wrapCol_interior hc with ⟨w3, w4⟩
    exact h _ _ w1 w2 w3 w4
  unfold neighSum
  rw [hcell (y - 1) (x - 1) (by omega) (by omega), hcell y (x - 1) (by omega) (by omega),
    hcell (y + 1) (x - 1) (by omega) (by omega), hcell (y - 1) x (by omega) (by omega),
    hcell y x (by omega) (by omega), hcell (y + 1) x (by omega) (by omega),
    hcell (y - 1) (x + 1) (by omega) (by omega), hcell y (x + 1) (by omega) (by omega),
    hcell (y + 1) (x + 1) (by omega) (by omega)]

lemma stepFn_congr {lines : Nat} (h1 : 1 ≤ lines) (h2 : lines ≤ NY) {g1 g2 : Grid}
    (h : interiorEq lines g1 g2) :
    interiorEq lines (stepFn lines g1) (stepFn lines g2) := by
  intro y x hy1 hy2 hx1 hx2
  have hNXv : NX = 1024 := rfl
  have hX : XSIZE = 1024 := rfl
  unfold stepFn simulateFn
  have hcond : 1 ≤ y ∧ y ≤ NY ∧ 1 ≤ x ∧ x ≤ NX := by omega
  rw [if_pos hcond, if_pos hcond,
    neighSum_boundaryCanon_congr h1 h2 h hy1 hy2 hx1 hx2]

/-- On the interior, the simulate kernel output does not depend on the stale
content of the destination buffer. -/
lemma simulateFn_interior_stepFn {lines : Nat} (h2 : lines ≤ NY) (g gT : Grid) :
    interiorEq lines (simulateFn (boundaryCanon lines g) gT lines) (stepFn lines g) := by
  intro y x hy1 hy2 hx1 hx2
  have hNXv : NX = 1024 := rfl
  have hX : XSIZE = 1024 := rfl
  unfold stepFn simulateFn
  have hcond : 1 ≤ y ∧ y ≤ NY ∧ 1 ≤ x ∧ x ≤ NX := by omega
  rw [if_pos hcond, if_pos hcond]

lemma stepFn_iterate_congr {lines : Nat} (h1 : 1 ≤ lines) (h2 : lines ≤ NY)
    (N : Nat) : ∀ {g1 g2 : Grid}, interiorEq lines g1 g2 →
    interiorEq lines ((stepFn lines)^[N] g1) ((stepFn lines)^[N] g2) := by
  induction N with
  | zero => exact fun h => h
  | succ k ih =>
    intro g1 g2 h
    rw [Function.iterate_succ_apply, Function.iterate_succ_apply]
    exact ih (stepFn_congr h1 h2 h)

/-- The driver loop performs exactly `N` ordered steps; on the interior its
reported buffer equals the `N`-th iterate of the step function on the
initial source grid. -/
lemma deviceRun_interior {lines : Nat} (h1 : 1 ≤ lines) (h2 : lines ≤ NY) (N : Nat) :
    ∀ gF gT : Grid,
      interiorEq lines (deviceRun lines N (gF, gT)).1 ((stepFn lines)^[N] gF) := by
  induction N with
  | zero =>
    intro gF gT y x _ _ _ _
    rfl
  | succ k ih =>
    intro gF gT y x hy1 hy2 hx1 hx2
    have hd : deviceRun lines (Nat.succ k) (gF, gT) =
        deviceRun lines k
          (simulateFn (boundaryCanon lines gF) gT lines, boundaryCanon lines gF) := rfl
    rw [hd, Function.iterate_succ_apply]
    have ha := ih (simulateFn (boundaryCanon lines gF) gT lines) (boundaryCanon lines gF)
    have hb := stepFn_iterate_congr h1 h2 k (simulateFn_interior_stepFn h2 gF gT)
    exact (ha y x hy1 hy2 hx1 hx2).trans (hb y x hy1 hy2 hx1 hx2)

/-! ### Boolean-valuedness of all written cells -/

lemma anneal_bool (s : Nat) : anneal s = 0 ∨ anneal s = 1 := by
  unfold anneal annealTable
  rcases s with _ | _ | _ | _ | _ | _ | _ | _ | _ | _ | s
  · left; rfl
  · left; rfl
  · left; rfl
  · left; rfl
  · right; rfl
  · left; rfl
  · right; rfl
  · right; rfl
  · right; rfl
  · right; rfl
  · left
    apply List.getD_eq_default
    simp

lemma simulateFn_boolGrid {gT : Grid} (gF : Grid) (lines : Nat) (hT : boolGrid gT) :
    boolGrid (simulateFn gF gT lines) := by
  intro y x
  unfold simulateFn
  split
  · exact anneal_bool _
  · exact hT y x

lemma initGrid_boolGrid (rng : Nat → Nat) (lines : Nat) : boolGrid (initGrid rng lines) := by
  intro y x
  unfold initGrid
  split
  · split
    · right; rfl
    · left; rfl
  · left; rfl

lemma deviceRun_boolGrid (lines N : Nat) : ∀ gF gT : Grid, boolGrid gF → boolGrid gT →
    boolGrid (deviceRun lines N (gF, gT)).1 ∧ boolGrid (deviceRun lines N (gF, gT)).2 := by
  induction N with
  | zero => exact fun gF gT hF hT => ⟨hF, hT⟩
  | succ k ih =>
    intro gF gT hF hT
    have hb : boolGrid (boundaryCanon lines gF) := runActs_boolGrid _ _ hF
    have hs : boolGrid (simulateFn (boundaryCanon lines gF) gT lines) :=
      simulateFn_boolGrid _ lines hT
    exact ih _ _ hs hb

/-! ### An adverse interleaving that corrupts a bottom halo corner -/

/-- An adverse admissible thread interleaving: thread `(0, 0)` (which writes
the four halo corners) runs first, then the rogue thread `(0, 1)` (which,
for `lines = 1`, re-copies the bottom-left corner from the still stale halo
cell `(2, XSIZE)`), then all remaining threads. -/
def eraseT (l : List (Nat × Nat)) (t : Nat × Nat) : List (Nat × Nat) :=
  @List.erase _ (@instBEqOfDecidableEq _ inferInstance) l t

def badOrderC3 : List (Nat × Nat) :=
  (0, 0) :: (0, 1) :: eraseT (eraseT allThreads (0, 0)) (0, 1)

/-- A concrete boolean grid for `lines = 1`: interior cell `(1, XSIZE)` is
alive, every other cell (including the stale halo row 2) is dead. -/
def gC3 : Grid := fun y x => if y = 1 ∧ x = 1024 then 1 else 0

lemma badOrderC3_perm : badOrderC3.Perm allThreads := by
  have h00 : ((0 : Nat), (0 : Nat)) ∈ allThreads := by
    apply mem_allThreads.mpr
    constructor
    · show (0 : Nat) < NX
      decide
    · show (0 : Nat) < NY
      decide
  have h01 : ((0 : Nat), (1 : Nat)) ∈ allThreads := by
    apply mem_allThreads.mpr
    constructor
    · show (0 : Nat) < NX
      decide
    · show (1 : Nat) < NY
      decide
  have p1 : allThreads.Perm ((0, 0) :: eraseT allThreads (0, 0)) := by
    unfold eraseT
    exact List.perm_cons_erase h00
  have h01e : ((0 : Nat), (1 : Nat)) ∈ eraseT allThreads (0, 0) := by
    rcases List.mem_cons.mp (p1.mem_iff.mp h01) with he | he
    · exact absurd he (by decide)
    · exact he
  have p2 : (eraseT allThreads (0, 0)).Perm
      ((0, 1) :: eraseT (eraseT allThreads (0, 0)) (0, 1)) := by
    unfold eraseT
    exact List.perm_cons_erase (by unfold eraseT at h01e; exact h01e)
  exact (p1.trans (p2.cons _)).symm

lemma badOrderC3_corner : boundaryExec 1 badOrderC3 gC3 2 0 = 0 := by
  have hn : badOrderC3.Nodup := badOrderC3_perm.symm.nodup allThreads_nodup
  unfold badOrderC3 at hn
  have hn0 := (List.nodup_cons.mp hn).1
  have hn1 := (List.nodup_cons.mp (List.nodup_cons.mp hn).2).1
  unfold boundaryExec badOrderC3
  rw [List.flatMap_cons, List.flatMap_cons, runActs_append, runActs_append]
  have hrest : ∀ a ∈ (eraseT (eraseT allThreads (0, 0)) (0, 1)).flatMap
      (fun t => boundaryThreadActs 1 t.1 t.2),
      a.tgt ≠ ((2 : Nat), (0 : Nat)) := by
    intro a ha
    rcases List.mem_flatMap.mp ha with ⟨t, ht, hmem⟩
    have hne1 : t ≠ ((0 : Nat), (1 : Nat)) := by
      intro he
      subst he
      exact hn1 ht
    have hne0 : t ≠ ((0 : Nat), (0 : Nat)) := by
      intro he
      subst he
      exact hn0 (List.mem_cons_of_mem _ ht)
    rcases mem_bta hmem with ⟨hy1, rfl⟩ | ⟨hy1, rfl⟩ | ⟨hx1, rfl⟩ | ⟨hx1, rfl⟩ |
      ⟨hx1, hy1, hc⟩
    · simp only [Act.tgt_mk]
      intro he
      rw [Prod.mk.injEq] at he
      omega
    · simp only [Act.tgt_mk]
      intro he
      rw [Prod.mk.injEq] at he
      omega
    · simp only [Act.tgt_mk]
      intro he
      rw [Prod.mk.injEq] at he
      exact hne1 (Prod.ext_iff.mpr ⟨by omega, by omega⟩)
    · simp only [Act.tgt_mk]
      intro he
      rw [Prod.mk.injEq] at he
      have hX : XSIZE = 1024 := rfl
      omega
    · rcases hc with rfl | rfl | rfl | rfl
      · simp only [Act.tgt_mk]
        intro he
        rw [Prod.mk.injEq] at he
        omega
      · simp only [Act.tgt_mk]
        intro he
        rw [Prod.mk.injEq] at he
        have hX : XSIZE = 1024 := rfl
        omega
      · intro he
        exact hne0 (Prod.ext_iff.mpr ⟨by omega, by omega⟩)
      · simp only [Act.tgt_mk]
        intro he
        rw [Prod.mk.injEq] at he
        omega
  rw [runActs_frame _ _ _ _ hrest]
  have ha01 : boundaryThreadActs 1 0 1 = [⟨(2, 0), (2, 1024)⟩] := rfl
  rw [ha01]
  have hstep : ∀ s : Grid, runActs s [(⟨(2, 0), (2, 1024)⟩ : Act)] 2 0 = s 2 1024 := by
    intro s
    show gwrite s (2, 0) (s 2 1024) 2 0 = s 2 1024
    exact gwrite_self s (2, 0) (s 2 1024)
  rw [hstep]
  have ha00 : ∀ a ∈ boundaryThreadActs 1 0 0, a.tgt ≠ ((2 : Nat), (1024 : Nat)) := by
    have hl : boundaryThreadActs 1 0 0 =
        [⟨(2, 1), (1, 1)⟩, ⟨(0, 1), (1, 1)⟩, ⟨(1, 0), (1, 1024)⟩,
         ⟨(0, 0), (1, 1024)⟩, ⟨(0, 1025), (1, 1)⟩, ⟨(2, 0), (1, 1024)⟩,
         ⟨(2, 1025), (1, 1)⟩] := rfl
    rw [hl]
    intro a ha
    fin_cases ha <;> decide
  rw [runActs_frame _ _ _ _ ha00]
  rfl

/-! ### Claim theorems -/

/-- C1 counterexample: the claim fails as stated because the launch geometry
is fixed: with `lines = 131073` the interior cell `(131073, 1)` is covered
by no kernel thread, so the destination keeps its stale value 5 instead of
receiving the anneal-table value (which would be 0 here). -/
theorem C1_counterexample :
    simulateFn (fun _ _ => 0) (fun _ _ => 5) 131073 131073 1 = 5 ∧
    anneal (neighSum (fun _ _ => 0) 131073 1) = 0 :=
  ⟨rfl, rfl⟩

/-- C1 (amended): for every interior cell `(row, col)` with
`row ≤ 131072` (the fixed thread-grid height), one invocation of the
transition kernel stores at `(row, col)` the anneal-table value of the
9-cell neighbourhood sum of the source; with boolean source cells the sum
is at most 9, and the table maps sums 4,6,7,8,9 to 1 and 0,1,2,3,5 to 0. -/
theorem C1_thm (gFrom gTo : Grid) (lines row col : Nat)
    (hb : boolGrid gFrom)
    (hr1 : 1 ≤ row) (hr2 : row ≤ lines) (hrN : row ≤ NY)
    (hc1 : 1 ≤ col) (hc2 : col ≤ XSIZE) :
    simulateFn gFrom gTo lines row col = anneal (neighSum gFrom row col) ∧
    neighSum gFrom row col ≤ 9 ∧
    anneal 0 = 0 ∧ anneal 1 = 0 ∧ anneal 2 = 0 ∧ anneal 3 = 0 ∧ anneal 4 = 1 ∧
    anneal 5 = 0 ∧ anneal 6 = 1 ∧ anneal 7 = 1 ∧ anneal 8 = 1 ∧ anneal 9 = 1 := by
  have hNXv : NX = 1024 := rfl
  have hX : XSIZE = 1024 := rfl
  have hle : ∀ y x : Nat, gFrom y x ≤ 1 := by
    intro y x
    rcases hb y x with h | h <;> omega
  refine ⟨?_, ?_, rfl, rfl, rfl, rfl, rfl, rfl, rfl, rfl, rfl, rfl⟩
  · unfold simulateFn
    rw [if_pos]
    omega
  · unfold neighSum
    have h1 := hle (row - 1) (col - 1)
    have h2 := hle row (col - 1)
    have h3 := hle (row + 1) (col - 1)
    have h4 := hle (row - 1) col
    have h5 := hle row col
    have h6 := hle (row + 1) col
    have h7 := hle (row - 1) (col + 1)
    have h8 := hle row (col + 1)
    have h9 := hle (row + 1) (col + 1)
    omega

/-- C1 witness: the amended theorem at a concrete input. -/
theorem C1_witness :
    boolGrid (fun _ _ => 1) ∧
    (simulateFn (fun _ _ => 1) (fun _ _ => 0) 1 1 1 =
        anneal (neighSum (fun _ _ => 1) 1 1) ∧
      neighSum (fun _ _ => 1) 1 1 ≤ 9 ∧
      anneal 0 = 0 ∧ anneal 1 = 0 ∧ anneal 2 = 0 ∧ anneal 3 = 0 ∧ anneal 4 = 1 ∧
      anneal 5 = 0 ∧ anneal 6 = 1 ∧ anneal 7 = 1 ∧ anneal 8 = 1 ∧ anneal 9 = 1) :=
  ⟨fun _ _ => Or.inr rfl,
   C1_thm (fun _ _ => 1) (fun _ _ => 0) 1 1 1 (fun _ _ => Or.inr rfl)
     (le_refl 1) (le_refl 1) (by decide) (le_refl 1) (by decide)⟩

/-- C2 counterexample: the claim fails as stated, in two ways forced by the
code.  With `lines = 131073` (beyond the fixed thread grid) the reported
interior cell `(131073, 1)` holds the uninitialized destination value 1,
not the step-function value 0.  And with `lines = 2`, `N = 1` the reported
buffer differs from the step-function iterate on halo row 0, which is
copied back from the never-uploaded device destination buffer. -/
theorem C2_counterexample :
    (deviceRun 131073 1 ((fun _ _ => 0), (fun _ _ => 1))).1 131073 1 = 1 ∧
    (stepFn 131073)^[1] (fun _ _ => 0) 131073 1 = 0 ∧
    (deviceRun 2 1 ((fun _ _ => 0), (fun _ _ => 1))).1 0 1 = 1 ∧
    (stepFn 2)^[1] (fun _ _ => 0) 0 1 = 0 :=
  ⟨rfl, rfl, rfl, rfl⟩

/-- C2 (amended): for `1 ≤ lines ≤ 131072`, the driver performs exactly `N`
ordered boundary-then-transition steps with the destination of step `k`
becoming the source of step `k+1`, copies back the buffer holding the
source role, and on every interior cell the reported grid equals the
`N`-fold application of the step function to the initial grid (halo cells
of the reported buffer are stale scratch and are not described by the step
function). -/
theorem C2_thm (lines N : Nat) (h1 : 1 ≤ lines) (h2 : lines ≤ NY) (gF gT : Grid)
    (y x : Nat) (hy1 : 1 ≤ y) (hy2 : y ≤ lines) (hx1 : 1 ≤ x) (hx2 : x ≤ XSIZE) :
    (deviceRun lines N (gF, gT)).1 y x = (stepFn lines)^[N] gF y x :=
  deviceRun_interior h1 h2 N gF gT y x hy1 hy2 hx1 hx2

/-- C2 witness: the amended theorem at a concrete input. -/
theorem C2_witness :
    1 ≤ 1 ∧ (1 : Nat) ≤ NY ∧
    (deviceRun 1 1 ((fun _ _ => 0), (fun _ _ => 0))).1 1 1 =
      (stepFn 1)^[1] (fun _ _ => 0) 1 1 :=
  ⟨le_refl 1, by decide,
   C2_thm 1 1 (le_refl 1) (by decide) (fun _ _ => 0) (fun _ _ => 0) 1 1
     (le_refl 1) (le_refl 1) (le_refl 1) (by decide)⟩

/-- C3: after an admissible execution of the boundary kernel (an adverse but
legal thread interleaving of the fixed 1024 × 131072 launch), the
bottom-left halo corner holds the stale value 0 instead of the
diagonally-opposite interior cell `(1, XSIZE) = 1`: the corner-copy step of
thread `(0,0)` races with the `x == 0` copy of thread `(0, lines)`, with no
synchronization between them. -/
theorem C3_thm :
    badOrderC3.Perm allThreads ∧
    boundaryExec 1 badOrderC3 gC3 2 0 = 0 ∧
    gC3 1 XSIZE = 1 :=
  ⟨badOrderC3_perm, badOrderC3_corner, rfl⟩

/-- C4: the transition kernel writes destination halo cells: with
`lines = 1` the halo cell `(2, 1)` of the destination grid is overwritten
by the kernel (stale value 7 replaced by the table value 0), because the
fixed launch spawns threads for all rows up to 131072 with no bounds
check against `lines`. -/
theorem C4_thm :
    simulateFn (fun _ _ => 0) (fun _ _ => 7) 1 2 1 = 0 ∧ (7 : Nat) ≠ 0 :=
  ⟨rfl, by decide⟩

/-- C5: the boundary synchronizer's writes are confined to the halo: after
any admissible execution every interior cell holds its previous value. -/
theorem C5_thm (lines : Nat) (order : List (Nat × Nat))
    (hperm : order.Perm allThreads) (g : Grid) (r c : Nat)
    (hr1 : 1 ≤ r) (hr2 : r ≤ lines) (hc1 : 1 ≤ c) (hc2 : c ≤ XSIZE) :
    boundaryExec lines order g r c = g r c :=
  boundaryExec_interior lines order g r c hr1 hr2 hc1 hc2

/-- C5 witness: the theorem at a concrete input. -/
theorem C5_witness :
    allThreads.Perm allThreads ∧
    boundaryExec 1 allThreads (fun _ _ => 1) 1 1 = 1 :=
  ⟨List.Perm.refl _,
   C5_thm 1 allThreads (List.Perm.refl _) (fun _ _ => 1) 1 1
     (le_refl 1) (le_refl 1) (le_refl 1) (by decide)⟩

/-- C6: running the driver with `N = 0` iterations performs no boundary
synchronization and no transition; the buffer copied back to the host is
exactly the initial source grid. -/
theorem C6_thm (lines : Nat) (gF gT : Grid) :
    (deviceRun lines 0 (gF, gT)).1 = gF := rfl

/-- C7: the digest input is wrong: `getMD5DigestStr(from, lines)` hashes
only the first `lines` bytes of the buffer — for any final grid `g` at
`lines = 1` that is the single halo byte `g 0 0` — whereas the interior
grid has 1024 bytes; the two byte strings can never agree. -/
theorem C7_thm (g : Grid) :
    hashedBytes g 1 = [g 0 0] ∧
    (interiorBytes g 1).length = 1024 ∧
    (hashedBytes g 1).length ≠ (interiorBytes g 1).length := by
  refine ⟨rfl, ?_, ?_⟩
  · unfold interiorBytes
    rw [show List.range 1 = [0] from rfl]
    simp [XSIZE]
  · unfold hashedBytes interiorBytes
    rw [show List.range 1 = [0] from rfl]
    simp [XSIZE]

/-- C8: the final reported grid is not a deterministic function of seed,
`lines` and `N`: with `lines = 2`, `N = 1` the reported buffer exposes the
never-initialized device destination buffer at halo cell `(0, 1)` (only the
source buffer is uploaded), and that byte is among the bytes being hashed;
two runs whose uninitialized device memory differs report different
grids. -/
theorem C8_thm :
    (deviceRun 2 1 ((fun _ _ => 0), (fun _ _ => 0))).1 0 1 = 0 ∧
    (deviceRun 2 1 ((fun _ _ => 0), (fun _ _ => 1))).1 0 1 = 1 ∧
    hashedBytes (deviceRun 2 1 ((fun _ _ => 0), (fun _ _ => 0))).1 2 = [0, 0] ∧
    hashedBytes (deviceRun 2 1 ((fun _ _ => 0), (fun _ _ => 1))).1 2 = [1, 1] :=
  ⟨rfl, rfl, rfl, rfl⟩

/-- C9: if allocation of the host `from` buffer fails, the program does not
reach the reported-failure exit: `initConfig(from, lines)` stores through
the null pointer before the `from == NULL` check runs (a crash, not the
reported termination); only a failed `to` allocation reaches the report. -/
theorem C9_thm :
    hostAllocCheck false true = HostAllocOutcome.crashNullWrite ∧
    hostAllocCheck false true ≠ HostAllocOutcome.reportHostAllocFail ∧
    hostAllocCheck true false = HostAllocOutcome.reportHostAllocFail :=
  ⟨rfl, by decide, rfl⟩

/-- C10 counterexample: the claim fails as stated — a grid reachable from a
boolean (all-zero) initial configuration is not boolean-valued: with
`lines = 2`, `N = 1` the reported buffer exposes a never-written byte of
the uninitialized device destination buffer (modelled as holding 7) at
cell `(0, 1)`, because `pTo` is allocated but never uploaded. -/
theorem C10_counterexample :
    boolGrid (fun _ _ => 0) ∧
    ¬ boolGrid (deviceRun 2 1 ((fun _ _ => 0), (fun _ _ => 7))).1 := by
  refine ⟨fun _ _ => Or.inl rfl, fun h => ?_⟩
  have hv := h 0 1
  rw [show (deviceRun 2 1 ((fun _ _ => 0), (fun _ _ => 7))).1 0 1 = 7 from rfl] at hv
  rcases hv with hv | hv
  · exact absurd hv (by decide)
  · exact absurd hv (by decide)

/-- C10 (amended): every operation writes only boolean cell values — the
initializer writes only comparison results, the transition kernel writes
only anneal-table entries (each 0 or 1), the boundary kernel only copies
existing values (under any interleaving) — and the driver loop preserves
boolean-valuedness of any buffer pair whose cells are all 0 or 1.  (Grids
reachable in an actual run additionally contain never-written bytes of the
uninitialized device destination buffer, which need not be 0 or 1; see the
counterexample.) -/
theorem C10_thm (rng : Nat → Nat) (lines N : Nat) (order : List (Nat × Nat))
    (gF gT g : Grid) (hF : boolGrid gF) (hT : boolGrid gT) (hg : boolGrid g) :
    boolGrid (initGrid rng lines) ∧
    boolGrid (boundaryExec lines order g) ∧
    boolGrid (simulateFn gF gT lines) ∧
    boolGrid (deviceRun lines N (gF, gT)).1 ∧
    boolGrid (deviceRun lines N (gF, gT)).2 :=
  ⟨initGrid_boolGrid rng lines, runActs_boolGrid _ _ hg,
   simulateFn_boolGrid _ lines hT,
   (deviceRun_boolGrid lines N gF gT hF hT).1,
   (deviceRun_boolGrid lines N gF gT hF hT).2⟩

/-- C10 witness: the theorem at a concrete input. -/
theorem C10_witness :
    boolGrid (fun _ _ => 0) ∧
    (boolGrid (initGrid (fun _ => 0) 1) ∧
     boolGrid (boundaryExec 1 allThreads (fun _ _ => 0)) ∧
     boolGrid (simulateFn (fun _ _ => 0) (fun _ _ => 0) 1) ∧
     boolGrid (deviceRun 1 1 ((fun _ _ => 0), (fun _ _ => 0))).1 ∧
     boolGrid (deviceRun 1 1 ((fun _ _ => 0), (fun _ _ => 0))).2) :=
  ⟨fun _ _ => Or.inl rfl,
   C10_thm (fun _ => 0) 1 1 allThreads (fun _ _ => 0) (fun _ _ => 0) (fun _ _ => 0)
     (fun _ _ => Or.inl rfl) (fun _ _ => Or.inl rfl) (fun _ _ => Or.inl rfl)⟩

end CA
